import Mathlib

/-!
Shallow embedding of the simulation engine of `src/worker/index.js`
(the `Simulation` class: agent initialization, the per-step transition
rule, the Gini and velocity metrics, the AGI deployment shock and the
policy logic), together with theorems settling the specification claims.

JavaScript numbers are modelled as exact rationals (`ℚ`).  The ambient
`Math.random()` stream is modelled as an explicit parameter
`rnd : Nat → ℚ` (agent `i` consumes draws `2*i` and `2*i + 1`, matching
the sequential consumption order of the source: two draws per
worker/capitalist, none for government agents), and `Math.exp` as an
explicit parameter `mexp : ℚ → ℚ` (its only property the claims need is
positivity, which is assumed where required).
-/

namespace AgiEconomy

/-- The `type` field of an agent: `'worker' | 'capitalist' | 'government'`. -/
inductive AgentType
  | worker
  | capitalist
  | government
deriving DecidableEq, Repr

/-- The `strategy` field of an agent:
`'normal' | 'save' | 'spend' | 'invest' | 'regulate'`. -/
inductive Strategy
  | normal
  | save
  | spend
  | invest
  | regulate
deriving DecidableEq, Repr

/-- One economic agent, as pushed by `initAgents`. -/
structure Agent where
  id : Nat
  type : AgentType
  wealth : ℚ
  income : ℚ
  happiness : ℚ
  strategy : Strategy
deriving DecidableEq, Repr

/-- The fully-defaulted parameter record `this.params`. -/
structure Params where
  nAgents : ℚ
  agiBoost : ℚ
  workerRationality : ℚ
  herdEffect : ℚ
  ubi : ℚ
  computeTax : ℚ
  workHours : ℚ
deriving DecidableEq, Repr

/-- The raw JSON body passed to the constructor: each recognized key may
be present (`some v`) or absent (`none`). -/
structure RawParams where
  nAgents : Option ℚ := none
  agiBoost : Option ℚ := none
  workerRationality : Option ℚ := none
  herdEffect : Option ℚ := none
  ubi : Option ℚ := none
  computeTax : Option ℚ := none
  workHours : Option ℚ := none
deriving DecidableEq, Repr

/-- JavaScript `x || d` for a possibly-absent number: an absent key and
the falsy number `0` both fall back to the default `d`. -/
def jsOr (x : Option ℚ) (d : ℚ) : ℚ :=
  match x with
  | none => d
  | some v => if v = 0 then d else v

/-- The constructor's parameter object
`{ nAgents: params.nAgents || 1000, ..., ...params }`: the `||`-defaults
are computed first, then the spread `...params` overrides every key that
is present in the raw input. -/
def mkParams (raw : RawParams) : Params :=
  let defaulted : Params :=
    { nAgents := jsOr raw.nAgents 1000
      agiBoost := jsOr raw.agiBoost 5.0
      workerRationality := jsOr raw.workerRationality 0.4
      herdEffect := jsOr raw.herdEffect 0.5
      ubi := jsOr raw.ubi 0
      computeTax := jsOr raw.computeTax 0
      workHours := jsOr raw.workHours 4 }
  { nAgents := raw.nAgents.getD defaulted.nAgents
    agiBoost := raw.agiBoost.getD defaulted.agiBoost
    workerRationality := raw.workerRationality.getD defaulted.workerRationality
    herdEffect := raw.herdEffect.getD defaulted.herdEffect
    ubi := raw.ubi.getD defaulted.ubi
    computeTax := raw.computeTax.getD defaulted.computeTax
    workHours := raw.workHours.getD defaulted.workHours }

/-- A worker agent as pushed by the first loop of `initAgents`. -/
def mkWorker (rnd : Nat → ℚ) (mexp : ℚ → ℚ) (i : Nat) : Agent :=
  { id := i
    type := AgentType.worker
    wealth := mexp (2 + rnd (2 * i) * 0.5)
    income := 100 + (rnd (2 * i + 1) - 0.5) * 40
    happiness := 0.6
    strategy := Strategy.normal }

/-- A capitalist agent as pushed by the second loop of `initAgents`. -/
def mkCapitalist (rnd : Nat → ℚ) (mexp : ℚ → ℚ) (i : Nat) : Agent :=
  { id := i
    type := AgentType.capitalist
    wealth := mexp (6 + rnd (2 * i) * 1.5)
    income := 500 + (rnd (2 * i + 1) - 0.5) * 400
    happiness := 0.7
    strategy := Strategy.invest }

/-- A government agent as pushed by the third loop of `initAgents`. -/
def mkGovernment (i : Nat) : Agent :=
  { id := i
    type := AgentType.government
    wealth := 1000000
    income := 0
    happiness := 0.5
    strategy := Strategy.regulate }

/-- `Simulation.initAgents`: three contiguous id bands with floor-division
boundaries `Math.floor(n * 0.8)` and `Math.floor(n * 0.999)`; the
government loop runs while `i < n`, i.e. for `⌈n⌉ - ⌊n * 0.999⌋` integer
values of `i`. -/
def initAgents (p : Params) (rnd : Nat → ℚ) (mexp : ℚ → ℚ) : List Agent :=
  let n := p.nAgents
  let wEnd : Nat := (⌊n * 0.8⌋).toNat
  let cEnd : Nat := (⌊n * 0.999⌋).toNat
  let nEnd : Nat := (⌈n⌉).toNat
  (List.range' 0 wEnd).map (mkWorker rnd mexp)
    ++ (List.range' wEnd (cEnd - wEnd)).map (mkCapitalist rnd mexp)
    ++ (List.range' cEnd (nEnd - cEnd)).map mkGovernment

/-- The wealth list of `calculateGini`: `map(a => a.wealth)` sorted
ascending by the numeric comparator `(a, b) => a - b`. -/
def sortedWealths (agents : List Agent) : List ℚ :=
  (agents.map (fun a => a.wealth)).mergeSort (fun a b => decide (a ≤ b))

/-- The accumulation loop of `calculateGini`:
`for (i = 0; i < n; i++) gini += (2*(i+1) - n - 1) * wealths[i]`. -/
def giniSum (ws : List ℚ) : ℚ :=
  ∑ i ∈ Finset.range ws.length,
    (2 * ((i : ℚ) + 1) - ws.length - 1) * ws.getD i 0

/-- `Simulation.calculateGini`. -/
def calculateGini (agents : List Agent) : ℚ :=
  let ws := sortedWealths agents
  let n := ws.length
  let sum := ws.sum
  if sum = 0 then 0 else giniSum ws / (n * sum)

/-- Total wealth of a population. -/
def totalWealth (agents : List Agent) : ℚ :=
  (agents.map (fun a => a.wealth)).sum

/-- Total income of a population. -/
def totalIncome (agents : List Agent) : ℚ :=
  (agents.map (fun a => a.income)).sum

/-- `Simulation.calculateVelocity`. -/
def calculateVelocity (agents : List Agent) : ℚ :=
  if 0 < totalWealth agents then totalIncome agents / totalWealth agents * 10
  else 0

/-- The five parallel history sequences. -/
structure History where
  steps : List Nat
  gini : List ℚ
  velocity : List ℚ
  workerHappiness : List ℚ
  capitalistHappiness : List ℚ
deriving DecidableEq, Repr

/-- The empty history a fresh `Simulation` starts with. -/
def emptyHistory : History :=
  { steps := [], gini := [], velocity := [],
    workerHappiness := [], capitalistHappiness := [] }

/-- The whole simulation state owned by one `Simulation` object. -/
structure Sim where
  params : Params
  step : Nat
  agiDeployed : Bool
  agents : List Agent
  history : History
deriving DecidableEq, Repr

/-- The `Simulation` constructor: default-and-override the parameters,
reset the step counter, the deployment flag and the history, and build
the agent population. -/
def mkSim (raw : RawParams) (rnd : Nat → ℚ) (mexp : ℚ → ℚ) : Sim :=
  let p := mkParams raw
  { params := p
    step := 0
    agiDeployed := false
    agents := initAgents p rnd mexp
    history := emptyHistory }

/-- The `switch (agent.strategy)` body of the strategy phase of
`runStep`, before the final clamp. -/
def stratCase (a : Agent) : Agent :=
  match a.strategy with
  | Strategy.save =>
      { a with wealth := a.wealth + a.income * 0.3
               happiness := max 0 (a.happiness - 0.005) }
  | Strategy.spend =>
      if 10 < a.wealth then
        { a with wealth := a.wealth * 0.95
                 happiness := min 1 (a.happiness + 0.01) }
      else a
  | Strategy.invest =>
      if a.type = AgentType.capitalist then
        { a with wealth := a.wealth * 1.02, income := a.income * 1.002 }
      else a
  | _ => a

/-- One agent's full strategy-phase update: the `switch` body followed by
`agent.happiness = Math.max(0, Math.min(1, agent.happiness))`. -/
def stratPhase (a : Agent) : Agent :=
  let b := stratCase a
  { b with happiness := max 0 (min 1 b.happiness) }

/-- The UBI update applied to each worker when `params.ubi > 0`. -/
def applyUBI (ubi : ℚ) (a : Agent) : Agent :=
  if a.type = AgentType.worker then
    { a with income := a.income + ubi
             happiness := min 1 (a.happiness + 0.005) }
  else a

/-- `agiSurplus * computeTax` for one capitalist's income:
`income * (1 - 1/agiBoost) * computeTax`. -/
def agiTax (agiBoost computeTax income : ℚ) : ℚ :=
  income * (1 - 1 / agiBoost) * computeTax

/-- The accumulated `taxRevenue` over all capitalists of the population. -/
def taxRevenue (p : Params) (agents : List Agent) : ℚ :=
  ((agents.filter (fun a => a.type = AgentType.capitalist)).map
    (fun c => agiTax p.agiBoost p.computeTax c.income)).sum

/-- The compute-tax update of one agent: capitalists pay their tax and
lose 0.003 happiness (floored at 0); workers receive the per-worker
redistribution `rev / workerCount`. -/
def applyTax (p : Params) (rev : ℚ) (workerCount : Nat) (a : Agent) : Agent :=
  if a.type = AgentType.capitalist then
    { a with income := a.income - agiTax p.agiBoost p.computeTax a.income
             happiness := max 0 (a.happiness - 0.003) }
  else if a.type = AgentType.worker then
    { a with income := a.income + rev / workerCount }
  else a

/-- The policy phase of `runStep`: entered only when `ubi > 0` or
(`computeTax > 0` and AGI is deployed); `workerCount` is the length of
the `workers` filter taken at the top of `runStep`. -/
def policyPhase (p : Params) (agiDeployed : Bool) (workerCount : Nat)
    (agents : List Agent) : List Agent :=
  if 0 < p.ubi ∨ (0 < p.computeTax ∧ agiDeployed) then
    let agents1 := if 0 < p.ubi then agents.map (applyUBI p.ubi) else agents
    if 0 < p.computeTax ∧ agiDeployed then
      let rev := taxRevenue p agents1
      agents1.map (applyTax p rev workerCount)
    else agents1
  else agents

/-- Mean happiness of the cohort of the given type (the history
sampling's `workers.reduce(...) / workers.length`). -/
def meanHappiness (agents : List Agent) (t : AgentType) : ℚ :=
  let cohort := agents.filter (fun a => a.type = t)
  ((cohort.map (fun a => a.happiness)).sum) / cohort.length

/-- Appending one sample to every history sequence. -/
def pushHistory (h : History) (step : Nat) (agents : List Agent) : History :=
  { steps := h.steps ++ [step]
    gini := h.gini ++ [calculateGini agents]
    velocity := h.velocity ++ [calculateVelocity agents]
    workerHappiness := h.workerHappiness ++ [meanHappiness agents AgentType.worker]
    capitalistHappiness :=
      h.capitalistHappiness ++ [meanHappiness agents AgentType.capitalist] }

/-- `Simulation.runStep`: increment the step counter, run the strategy
phase on every agent, run the policy phase, and sample the history when
`step % 5 === 0`. -/
def runStep (s : Sim) : Sim :=
  let step := s.step + 1
  let workerCount := (s.agents.filter (fun a => a.type = AgentType.worker)).length
  let agents1 := s.agents.map stratPhase
  let agents2 := policyPhase s.params s.agiDeployed workerCount agents1
  let history := if step % 5 = 0 then pushHistory s.history step agents2 else s.history
  { s with step := step, agents := agents2, history := history }

/-- The per-agent update of `deployAGI`. -/
def deployShock (p : Params) (a : Agent) : Agent :=
  if a.type = AgentType.capitalist then
    { a with income := a.income * p.agiBoost, wealth := a.wealth * 1.5 }
  else if a.type = AgentType.worker then
    { a with income := a.income * 0.3, happiness := a.happiness * 0.5 }
  else a

/-- `Simulation.deployAGI`: set the flag and apply the shock to every
agent (unconditionally — the idempotence guard lives at the call site). -/
def deployAGI (s : Sim) : Sim :=
  { s with agiDeployed := true, agents := s.agents.map (deployShock s.params) }

/-- The Deploy operation as reachable from outside: `handleStep` invokes
`deployAGI` only under the guard `!simulationState.agiDeployed`. -/
def deployOp (s : Sim) : Sim :=
  if s.agiDeployed then s else deployAGI s

/-- The Advance operation's step loop: `runStep` iterated `k` times. -/
def advance (k : Nat) (s : Sim) : Sim :=
  runStep^[k] s

/-- Constant-zero stand-in for the `Math.random` stream, used only to
instantiate theorems at concrete inputs. -/
def zeroRnd : Nat → ℚ := fun _ => 0

/-- Constant-one stand-in for `Math.exp` (positive everywhere), used only
to instantiate theorems at concrete inputs. -/
def oneExp : ℚ → ℚ := fun _ => 1

/-- C1: Deploy is idempotent — invoking the Deploy operation (the
flag-guarded `deployAGI` call of `handleStep`) twice produces exactly the
same simulation state (agents' wealth, income, happiness, and the
`agiDeployed` flag) as invoking it once; the second invocation is a no-op
and applies no further multiplier. -/
theorem deployOp_idempotent (s : Sim) : deployOp (deployOp s) = deployOp s := by
  by_cases h : s.agiDeployed
  · simp [deployOp, h]
  · simp [deployOp, h, deployAGI]

/-- C3: for every population whose total wealth is 0 — including the
empty population — both `calculateGini` and `calculateVelocity` return
exactly 0. -/
theorem gini_velocity_zero_total (agents : List Agent)
    (h : totalWealth agents = 0) :
    calculateGini agents = 0 ∧ calculateVelocity agents = 0 := by
  constructor
  · have hperm : (sortedWealths agents).Perm (agents.map fun a => a.wealth) :=
      List.mergeSort_perm _ _
    have hsum : (sortedWealths agents).sum = 0 := by
      rw [hperm.sum_eq]; exact h
    simp [calculateGini, hsum]
  · simp [calculateVelocity, h]

/-- Witness for C3 at the empty population. -/
theorem gini_velocity_zero_total_witness :
    totalWealth [] = 0 ∧ calculateGini [] = 0 ∧ calculateVelocity [] = 0 :=
  ⟨rfl, (gini_velocity_zero_total [] rfl).1, (gini_velocity_zero_total [] rfl).2⟩

/-- C10: passing `nAgents = 0` explicitly stores 0 (the spread overrides
the `||`-default), producing an empty population; the default 1000
applies only when the `nAgents` key is absent. -/
theorem nAgents_zero_override (raw : RawParams) (rnd : Nat → ℚ) (mexp : ℚ → ℚ) :
    (raw.nAgents = some 0 →
      (mkSim raw rnd mexp).params.nAgents = 0 ∧ (mkSim raw rnd mexp).agents = []) ∧
    (raw.nAgents = none → (mkSim raw rnd mexp).params.nAgents = 1000) := by
  constructor
  · intro h
    have hn : (mkParams raw).nAgents = 0 := by simp [mkParams, h]
    refine ⟨hn, ?_⟩
    show initAgents (mkParams raw) rnd mexp = []
    simp [initAgents, hn]
  · intro h
    simp [mkSim, mkParams, h, jsOr]

/-- Witness for C10 at concrete inputs. -/
theorem nAgents_zero_override_witness :
    (mkSim { nAgents := some 0 } zeroRnd oneExp).params.nAgents = 0 ∧
    (mkSim { nAgents := some 0 } zeroRnd oneExp).agents = [] ∧
    (mkSim {} zeroRnd oneExp).params.nAgents = 1000 :=
  ⟨((nAgents_zero_override { nAgents := some 0 } zeroRnd oneExp).1 rfl).1,
   ((nAgents_zero_override { nAgents := some 0 } zeroRnd oneExp).1 rfl).2,
   (nAgents_zero_override {} zeroRnd oneExp).2 rfl⟩

/-- A filter keeps an entire mapped list when the predicate holds of
every mapped element. -/
lemma filter_map_of_all {α β : Type} (f : α → β) (p : β → Bool)
    (l : List α) (h : ∀ a ∈ l, p (f a) = true) :
    (l.map f).filter p = l.map f := by
  rw [List.filter_eq_self.mpr]
  intro b hb
  obtain ⟨a, ha, rfl⟩ := List.mem_map.1 hb
  exact h a ha

/-- A filter drops an entire mapped list when the predicate fails of
every mapped element. -/
lemma filter_map_of_none {α β : Type} (f : α → β) (p : β → Bool)
    (l : List α) (h : ∀ a ∈ l, ¬ p (f a) = true) :
    (l.map f).filter p = [] := by
  rw [List.filter_eq_nil_iff]
  intro b hb
  obtain ⟨a, ha, rfl⟩ := List.mem_map.1 hb
  exact h a ha

/-- C7: with `nAgents = 1000`, initialization creates exactly 800
workers (strategy `normal`), 199 capitalists (strategy `invest`) and 1
government agent (strategy `regulate`), with ids 0..999 assigned in band
order (the floor-division boundaries `⌊1000·0.8⌋ = 800` and
`⌊1000·0.999⌋ = 999`). -/
theorem init_1000_bands (p : Params) (rnd : Nat → ℚ) (mexp : ℚ → ℚ)
    (h : p.nAgents = 1000) :
    ((initAgents p rnd mexp).filter (fun a => a.type = AgentType.worker)).length = 800 ∧
    ((initAgents p rnd mexp).filter (fun a => a.type = AgentType.capitalist)).length = 199 ∧
    ((initAgents p rnd mexp).filter (fun a => a.type = AgentType.government)).length = 1 ∧
    (∀ a ∈ initAgents p rnd mexp, a.type = AgentType.worker → a.strategy = Strategy.normal) ∧
    (∀ a ∈ initAgents p rnd mexp, a.type = AgentType.capitalist → a.strategy = Strategy.invest) ∧
    (∀ a ∈ initAgents p rnd mexp, a.type = AgentType.government → a.strategy = Strategy.regulate) ∧
    (initAgents p rnd mexp).map (fun a => a.id) = List.range 1000 := by
  have e1 : (⌊(1000 : ℚ) * 0.8⌋).toNat = 800 := by
    have : (⌊(1000 : ℚ) * 0.8⌋) = 800 := by norm_num
    rw [this]; rfl
  have e2 : (⌊(1000 : ℚ) * 0.999⌋).toNat = 999 := by
    have : (⌊(1000 : ℚ) * 0.999⌋) = 999 := by norm_num
    rw [this]; rfl
  have e3 : (⌈(1000 : ℚ)⌉).toNat = 1000 := by
    have : (⌈(1000 : ℚ)⌉) = 1000 := by norm_num
    rw [this]; rfl
  have hrw : initAgents p rnd mexp =
      (List.range' 0 800).map (mkWorker rnd mexp)
        ++ (List.range' 800 199).map (mkCapitalist rnd mexp)
        ++ (List.range' 999 1).map mkGovernment := by
    simp only [initAgents, h, e1, e2, e3]
  rw [hrw]
  refine ⟨?_, ?_, ?_, ?_, ?_, ?_, ?_⟩
  · rw [List.filter_append, List.filter_append]
    rw [filter_map_of_all (mkWorker rnd mexp) _ _ (fun a _ => by simp [mkWorker]),
      filter_map_of_none (mkCapitalist rnd mexp) _ _ (fun a _ => by simp [mkCapitalist]),
      filter_map_of_none mkGovernment _ _ (fun a _ => by simp [mkGovernment])]
    simp
  · rw [List.filter_append, List.filter_append]
    rw [filter_map_of_all (mkCapitalist rnd mexp) _ _ (fun a _ => by simp [mkCapitalist]),
      filter_map_of_none (mkWorker rnd mexp) _ _ (fun a _ => by simp [mkWorker]),
      filter_map_of_none mkGovernment _ _ (fun a _ => by simp [mkGovernment])]
    simp
  · rw [List.filter_append, List.filter_append]
    rw [filter_map_of_all mkGovernment _ _ (fun a _ => by simp [mkGovernment]),
      filter_map_of_none (mkWorker rnd mexp) _ _ (fun a _ => by simp [mkWorker]),
      filter_map_of_none (mkCapitalist rnd mexp) _ _ (fun a _ => by simp [mkCapitalist])]
    simp
  · intro a ha _
    rcases List.mem_append.1 ha with h1 | h2
    · rcases List.mem_append.1 h1 with h1a | h1b
      · obtain ⟨i, _, rfl⟩ := List.mem_map.1 h1a; rfl
      · obtain ⟨i, _, rfl⟩ := List.mem_map.1 h1b; simp_all [mkCapitalist]
    · obtain ⟨i, _, rfl⟩ := List.mem_map.1 h2; simp_all [mkGovernment]
  · intro a ha _
    rcases List.mem_append.1 ha with h1 | h2
    · rcases List.mem_append.1 h1 with h1a | h1b
      · obtain ⟨i, _, rfl⟩ := List.mem_map.1 h1a; simp_all [mkWorker]
      · obtain ⟨i, _, rfl⟩ := List.mem_map.1 h1b; rfl
    · obtain ⟨i, _, rfl⟩ := List.mem_map.1 h2; simp_all [mkGovernment]
  · intro a ha _
    rcases List.mem_append.1 ha with h1 | h2
    · rcases List.mem_append.1 h1 with h1a | h1b
      · obtain ⟨i, _, rfl⟩ := List.mem_map.1 h1a; simp_all [mkWorker]
      · obtain ⟨i, _, rfl⟩ := List.mem_map.1 h1b; simp_all [mkCapitalist]
    · obtain ⟨i, _, rfl⟩ := List.mem_map.1 h2; rfl
  · rw [List.map_append, List.map_append, List.map_map, List.map_map, List.map_map]
    have hW : ((fun a => a.id) ∘ mkWorker rnd mexp) = fun i => i := rfl
    have hC : ((fun a => a.id) ∘ mkCapitalist rnd mexp) = fun i => i := rfl
    have hG : ((fun a => a.id) ∘ mkGovernment) = fun i => i := rfl
    rw [hW, hC, hG, List.map_id', List.map_id', List.map_id']
    have r1 : List.range' 0 800 ++ List.range' 800 199 = List.range' 0 999 := by
      have := List.range'_append 0 800 199 1
      norm_num at this
      exact this
    have r2 : List.range' 0 999 ++ List.range' 999 1 = List.range' 0 1000 := by
      have := List.range'_append 0 999 1 1
      norm_num at this
      exact this
    rw [r1, r2, List.range_eq_range']

/-- Witness for C7 at a concrete parameter record. -/
theorem init_1000_bands_witness :
    (mkParams { nAgents := some 1000 }).nAgents = 1000 ∧
    ((initAgents (mkParams { nAgents := some 1000 }) zeroRnd oneExp).filter
      (fun a => a.type = AgentType.worker)).length = 800 ∧
    ((initAgents (mkParams { nAgents := some 1000 }) zeroRnd oneExp).filter
      (fun a => a.type = AgentType.capitalist)).length = 199 ∧
    ((initAgents (mkParams { nAgents := some 1000 }) zeroRnd oneExp).filter
      (fun a => a.type = AgentType.government)).length = 1 ∧
    (initAgents (mkParams { nAgents := some 1000 }) zeroRnd oneExp).map
      (fun a => a.id) = List.range 1000 :=
  ⟨rfl,
   (init_1000_bands _ zeroRnd oneExp rfl).1,
   (init_1000_bands _ zeroRnd oneExp rfl).2.1,
   (init_1000_bands _ zeroRnd oneExp rfl).2.2.1,
   (init_1000_bands _ zeroRnd oneExp rfl).2.2.2.2.2.2⟩

/-- One step always increments the step counter. -/
lemma runStep_step (s : Sim) : (runStep s).step = s.step + 1 := rfl

/-- One step never changes the parameters. -/
lemma runStep_params (s : Sim) : (runStep s).params = s.params := rfl

/-- One step never changes the deployment flag. -/
lemma runStep_agiDeployed (s : Sim) : (runStep s).agiDeployed = s.agiDeployed := rfl

/-- The history after one step: sampled exactly when the incremented
counter is divisible by 5. -/
lemma runStep_history (s : Sim) :
    (runStep s).history =
      if (s.step + 1) % 5 = 0 then
        pushHistory s.history (s.step + 1) (runStep s).agents
      else s.history := rfl

/-- The policy phase never changes the number of agents. -/
lemma policyPhase_length (p : Params) (d : Bool) (wc : Nat) (l : List Agent) :
    (policyPhase p d wc l).length = l.length := by
  unfold policyPhase
  split_ifs <;> simp

/-- One step never changes the number of agents. -/
lemma runStep_length (s : Sim) :
    (runStep s).agents.length = s.agents.length := by
  show (policyPhase _ _ _ (s.agents.map stratPhase)).length = _
  rw [policyPhase_length, List.length_map]

/-- C6: from a fresh state (step 0, empty history), advancing 5 steps
sets the counter to 5 and appends exactly one entry to each of the five
history sequences; advancing 4 steps sets the counter to 4 and appends
none, since sampling occurs only when `step % 5 == 0`. -/
theorem advance_history_sampling (s : Sim) (h0 : s.step = 0)
    (hh : s.history = emptyHistory) :
    (advance 5 s).step = 5 ∧
    (advance 5 s).history.steps.length = 1 ∧
    (advance 5 s).history.gini.length = 1 ∧
    (advance 5 s).history.velocity.length = 1 ∧
    (advance 5 s).history.workerHappiness.length = 1 ∧
    (advance 5 s).history.capitalistHappiness.length = 1 ∧
    (advance 4 s).step = 4 ∧
    (advance 4 s).history.steps.length = 0 ∧
    (advance 4 s).history.gini.length = 0 ∧
    (advance 4 s).history.velocity.length = 0 ∧
    (advance 4 s).history.workerHappiness.length = 0 ∧
    (advance 4 s).history.capitalistHappiness.length = 0 := by
  have hadv5 : advance 5 s = runStep (runStep (runStep (runStep (runStep s)))) := rfl
  have hadv4 : advance 4 s = runStep (runStep (runStep (runStep s))) := rfl
  have st1 : (runStep s).step = 1 := by rw [runStep_step, h0]
  have hi1 : (runStep s).history = emptyHistory := by
    rw [runStep_history, h0, hh]; norm_num
  have st2 : (runStep (runStep s)).step = 2 := by rw [runStep_step, st1]
  have hi2 : (runStep (runStep s)).history = emptyHistory := by
    rw [runStep_history, st1, hi1]; norm_num
  have st3 : (runStep (runStep (runStep s))).step = 3 := by rw [runStep_step, st2]
  have hi3 : (runStep (runStep (runStep s))).history = emptyHistory := by
    rw [runStep_history, st2, hi2]; norm_num
  have st4 : (runStep (runStep (runStep (runStep s)))).step = 4 := by
    rw [runStep_step, st3]
  have hi4 : (runStep (runStep (runStep (runStep s)))).history = emptyHistory := by
    rw [runStep_history, st3, hi3]; norm_num
  have st5 : (runStep (runStep (runStep (runStep (runStep s))))).step = 5 := by
    rw [runStep_step, st4]
  have hi5 : (runStep (runStep (runStep (runStep (runStep s))))).history =
      pushHistory emptyHistory 5
        ((runStep (runStep (runStep (runStep (runStep s))))).agents) := by
    rw [runStep_history, st4, hi4]; norm_num
  rw [hadv4, hadv5, st5, hi5, st4, hi4]
  simp [pushHistory, emptyHistory]

/-- Witness for C6 at a concrete fresh simulation. -/
theorem advance_history_sampling_witness :
    (mkSim { nAgents := some 5 } zeroRnd oneExp).step = 0 ∧
    (mkSim { nAgents := some 5 } zeroRnd oneExp).history = emptyHistory ∧
    (advance 5 (mkSim { nAgents := some 5 } zeroRnd oneExp)).step = 5 ∧
    (advance 5 (mkSim { nAgents := some 5 } zeroRnd oneExp)).history.steps.length = 1 ∧
    (advance 4 (mkSim { nAgents := some 5 } zeroRnd oneExp)).step = 4 ∧
    (advance 4 (mkSim { nAgents := some 5 } zeroRnd oneExp)).history.steps.length = 0 :=
  ⟨rfl, rfl,
   (advance_history_sampling _ rfl rfl).1,
   (advance_history_sampling _ rfl rfl).2.1,
   (advance_history_sampling _ rfl rfl).2.2.2.2.2.2.1,
   (advance_history_sampling _ rfl rfl).2.2.2.2.2.2.2.1⟩

/-- The strategy phase ends with a clamp, so happiness lands in [0,1]. -/
lemma stratPhase_happiness (a : Agent) :
    0 ≤ (stratPhase a).happiness ∧ (stratPhase a).happiness ≤ 1 := by
  unfold stratPhase
  refine ⟨le_max_left _ _, max_le (by norm_num) (min_le_left _ _)⟩

/-- The UBI update keeps happiness in [0,1]. -/
lemma applyUBI_happiness (ubi : ℚ) (a : Agent)
    (h : 0 ≤ a.happiness ∧ a.happiness ≤ 1) :
    0 ≤ (applyUBI ubi a).happiness ∧ (applyUBI ubi a).happiness ≤ 1 := by
  unfold applyUBI
  split_ifs
  · exact ⟨le_min (by norm_num) (by linarith [h.1]), min_le_left _ _⟩
  · exact h

/-- The compute-tax update keeps happiness in [0,1]. -/
lemma applyTax_happiness (p : Params) (rev : ℚ) (wc : Nat) (a : Agent)
    (h : 0 ≤ a.happiness ∧ a.happiness ≤ 1) :
    0 ≤ (applyTax p rev wc a).happiness ∧ (applyTax p rev wc a).happiness ≤ 1 := by
  unfold applyTax
  split_ifs
  · exact ⟨le_max_left _ _, max_le (by norm_num) (by linarith [h.2])⟩
  · exact h
  · exact h

/-- The policy phase keeps every agent's happiness in [0,1]. -/
lemma policyPhase_happiness (p : Params) (d : Bool) (wc : Nat) (l : List Agent)
    (h : ∀ a ∈ l, 0 ≤ a.happiness ∧ a.happiness ≤ 1) :
    ∀ a ∈ policyPhase p d wc l, 0 ≤ a.happiness ∧ a.happiness ≤ 1 := by
  by_cases hu : 0 < p.ubi <;> by_cases ht : 0 < p.computeTax ∧ d
  · simp only [policyPhase, hu, ht, and_self, true_or, if_true, if_pos]
    intro a ha
    obtain ⟨b, hb, rfl⟩ := List.mem_map.1 ha
    obtain ⟨c, hc, rfl⟩ := List.mem_map.1 hb
    exact applyTax_happiness _ _ _ _ (applyUBI_happiness _ _ (h c hc))
  · simp only [policyPhase, hu, ht, if_true, if_false, true_or, if_pos, if_neg not_false]
    intro a ha
    obtain ⟨b, hb, rfl⟩ := List.mem_map.1 ha
    exact applyUBI_happiness _ _ (h b hb)
  · simp only [policyPhase, hu, ht, if_false, or_true, if_pos, if_neg not_false]
    intro a ha
    obtain ⟨b, hb, rfl⟩ := List.mem_map.1 ha
    exact applyTax_happiness _ _ _ _ (h b hb)
  · simp only [policyPhase, hu, ht, or_self, if_neg not_false]
    simpa using h

/-- The deployment shock keeps happiness in [0,1] (worker happiness is
halved, others untouched). -/
lemma deployShock_happiness (p : Params) (a : Agent)
    (h : 0 ≤ a.happiness ∧ a.happiness ≤ 1) :
    0 ≤ (deployShock p a).happiness ∧ (deployShock p a).happiness ≤ 1 := by
  unfold deployShock
  split_ifs
  · exact h
  · constructor
    · have := h.1; positivity
    · nlinarith [h.1, h.2]
  · exact h

/-- C4: after every call to `runStep`, every agent's happiness is in
[0,1] (the strategy phase clamps it and the policy-phase updates stay in
bounds), and `deployAGI` preserves this invariant. -/
theorem happiness_in_unit_interval (s : Sim) :
    (∀ a ∈ (runStep s).agents, 0 ≤ a.happiness ∧ a.happiness ≤ 1) ∧
    ((∀ a ∈ s.agents, 0 ≤ a.happiness ∧ a.happiness ≤ 1) →
      ∀ a ∈ (deployAGI s).agents, 0 ≤ a.happiness ∧ a.happiness ≤ 1) := by
  constructor
  · intro a ha
    have hrw : (runStep s).agents =
        policyPhase s.params s.agiDeployed
          ((s.agents.filter (fun a => a.type = AgentType.worker)).length)
          (s.agents.map stratPhase) := rfl
    rw [hrw] at ha
    refine policyPhase_happiness _ _ _ _ ?_ a ha
    intro b hb
    obtain ⟨c, _, rfl⟩ := List.mem_map.1 hb
    exact stratPhase_happiness c
  · intro hinv a ha
    obtain ⟨b, hb, rfl⟩ := List.mem_map.1 ha
    exact deployShock_happiness _ _ (hinv b hb)

/-- A small concrete simulation used to instantiate theorems. -/
def sampleSim : Sim := mkSim { nAgents := some 5 } zeroRnd oneExp

/-- The sample simulation has 5 agents (4 workers, 1 government). -/
lemma sampleSim_length : sampleSim.agents.length = 5 := by
  have e1 : (⌊(5 : ℚ) * 0.8⌋).toNat = 4 := by
    have : (⌊(5 : ℚ) * 0.8⌋) = 4 := by norm_num
    rw [this]; rfl
  have e2 : (⌊(5 : ℚ) * 0.999⌋).toNat = 4 := by
    have : (⌊(5 : ℚ) * 0.999⌋) = 4 := by norm_num
    rw [this]; rfl
  have e3 : (⌈(5 : ℚ)⌉).toNat = 5 := by
    have : (⌈(5 : ℚ)⌉) = 5 := by norm_num
    rw [this]; rfl
  have hn : (mkParams { nAgents := some 5 } : Params).nAgents = 5 := rfl
  show (initAgents (mkParams { nAgents := some 5 }) zeroRnd oneExp).length = 5
  simp only [initAgents, hn, e1, e2, e3]
  simp

/-- Every freshly initialized agent has happiness in [0,1] (0.6, 0.7 or
0.5 by band). -/
lemma initAgents_happiness (p : Params) (rnd : Nat → ℚ) (mexp : ℚ → ℚ) :
    ∀ a ∈ initAgents p rnd mexp, 0 ≤ a.happiness ∧ a.happiness ≤ 1 := by
  intro a ha
  simp only [initAgents] at ha
  rcases List.mem_append.1 ha with h1 | h2
  · rcases List.mem_append.1 h1 with h1a | h1b
    · obtain ⟨i, _, rfl⟩ := List.mem_map.1 h1a
      constructor <;> norm_num [mkWorker]
    · obtain ⟨i, _, rfl⟩ := List.mem_map.1 h1b
      constructor <;> norm_num [mkCapitalist]
  · obtain ⟨i, _, rfl⟩ := List.mem_map.1 h2
    constructor <;> norm_num [mkGovernment]

/-- Witness for C4 at a concrete simulation and agent. -/
theorem happiness_in_unit_interval_witness :
    (0 ≤ ((runStep sampleSim).agents.getD 0 (mkGovernment 0)).happiness ∧
      ((runStep sampleSim).agents.getD 0 (mkGovernment 0)).happiness ≤ 1) ∧
    (0 ≤ ((deployAGI sampleSim).agents.getD 0 (mkGovernment 0)).happiness ∧
      ((deployAGI sampleSim).agents.getD 0 (mkGovernment 0)).happiness ≤ 1) := by
  have hlen : (runStep sampleSim).agents.length = 5 := by
    rw [runStep_length, sampleSim_length]
  have hpos : 0 < (runStep sampleSim).agents.length := by rw [hlen]; norm_num
  have hmem : (runStep sampleSim).agents.getD 0 (mkGovernment 0) ∈
      (runStep sampleSim).agents := by
    rw [List.getD_eq_get _ _ hpos]
    exact List.get_mem _ _ _
  have hlen2 : (deployAGI sampleSim).agents.length = 5 := by
    show (sampleSim.agents.map (deployShock sampleSim.params)).length = 5
    rw [List.length_map, sampleSim_length]
  have hpos2 : 0 < (deployAGI sampleSim).agents.length := by rw [hlen2]; norm_num
  have hmem2 : (deployAGI sampleSim).agents.getD 0 (mkGovernment 0) ∈
      (deployAGI sampleSim).agents := by
    rw [List.getD_eq_get _ _ hpos2]
    exact List.get_mem _ _ _
  exact ⟨(happiness_in_unit_interval sampleSim).1 _ hmem,
    (happiness_in_unit_interval sampleSim).2
      (initAgents_happiness _ zeroRnd oneExp) _ hmem2⟩

/-- The strategy phase never changes an agent's type. -/
lemma stratPhase_type (a : Agent) : (stratPhase a).type = a.type := by
  obtain ⟨i, t, w, inc, hp, st⟩ := a
  unfold stratPhase stratCase
  cases st <;> dsimp <;> (try split_ifs) <;> rfl

/-- The strategy phase never changes an agent's strategy. -/
lemma stratPhase_strategy (a : Agent) : (stratPhase a).strategy = a.strategy := by
  obtain ⟨i, t, w, inc, hp, st⟩ := a
  unfold stratPhase stratCase
  cases st <;> dsimp <;> (try split_ifs) <;> rfl

/-- On a `normal`-strategy agent the strategy phase only clamps
happiness. -/
lemma stratPhase_of_normal (a : Agent) (h : a.strategy = Strategy.normal) :
    stratPhase a = { a with happiness := max 0 (min 1 a.happiness) } := by
  obtain ⟨i, t, w, inc, hp, st⟩ := a
  have h' : st = Strategy.normal := h
  subst h'
  rfl

/-- The UBI update on a worker adds `ubi` to income and bumps
happiness. -/
lemma applyUBI_worker (ubi : ℚ) (a : Agent) (h : a.type = AgentType.worker) :
    applyUBI ubi a =
      { a with income := a.income + ubi
               happiness := min 1 (a.happiness + 0.005) } := by
  unfold applyUBI
  rw [if_pos h]

/-- The UBI update never changes type or strategy. -/
lemma applyUBI_type_strategy (ubi : ℚ) (a : Agent) :
    (applyUBI ubi a).type = a.type ∧ (applyUBI ubi a).strategy = a.strategy := by
  unfold applyUBI
  split_ifs <;> exact ⟨rfl, rfl⟩

/-- With the compute-tax branch off and UBI on, one step maps every
agent through the strategy phase and then the UBI update. -/
lemma runStep_agents_ubi_only (s : Sim)
    (ht : ¬(0 < s.params.computeTax ∧ s.agiDeployed))
    (hu : 0 < s.params.ubi) :
    (runStep s).agents = s.agents.map (fun a => applyUBI s.params.ubi (stratPhase a)) := by
  show policyPhase s.params s.agiDeployed _ (s.agents.map stratPhase)
      = s.agents.map (fun a => applyUBI s.params.ubi (stratPhase a))
  simp [policyPhase, hu, ht, List.map_map, Function.comp]

/-- `advance` unfolds one step at a time. -/
lemma advance_succ (k : Nat) (s : Sim) :
    advance (k + 1) s = advance k (runStep s) := by
  simp [advance, Function.iterate_succ_apply]

/-- `advance` never changes the parameters. -/
lemma advance_params (k : Nat) (s : Sim) : (advance k s).params = s.params := by
  induction k generalizing s with
  | zero => rfl
  | succ m ih => rw [advance_succ, ih, runStep_params]

/-- `advance` never changes the number of agents. -/
lemma advance_length (k : Nat) (s : Sim) :
    (advance k s).agents.length = s.agents.length := by
  induction k generalizing s with
  | zero => rfl
  | succ m ih => rw [advance_succ, ih, runStep_length]

/-- With the compute-tax branch off and UBI on, a `normal`-strategy
worker's income grows by exactly `ubi` per step, for any number of
steps. -/
lemma advance_worker_income (k : Nat) (s : Sim)
    (htax : s.params.computeTax = 0) (hubi : 0 < s.params.ubi) :
    ∀ (i : Nat), i < s.agents.length →
      (s.agents.getD i (mkGovernment 0)).type = AgentType.worker →
      (s.agents.getD i (mkGovernment 0)).strategy = Strategy.normal →
      ((advance k s).agents.getD i (mkGovernment 0)).income
        = (s.agents.getD i (mkGovernment 0)).income + k * s.params.ubi := by
  induction k generalizing s with
  | zero =>
      intro i hi hw hn
      show (s.agents.getD i (mkGovernment 0)).income = _
      push_cast
      ring
  | succ m ih =>
      intro i hi hw hn
      have ht : ¬(0 < s.params.computeTax ∧ s.agiDeployed) := by
        rw [htax]; simp
      have hmap := runStep_agents_ubi_only s ht hubi
      have hi' : i < (runStep s).agents.length := by rw [runStep_length]; exact hi
      have hgd : (runStep s).agents.getD i (mkGovernment 0)
          = applyUBI s.params.ubi (stratPhase (s.agents.getD i (mkGovernment 0))) := by
        rw [hmap]
        rw [List.getD_eq_get _ _
          (show i < (s.agents.map
            (fun a => applyUBI s.params.ubi (stratPhase a))).length by
              rw [List.length_map]; exact hi)]
        rw [List.get_map]
        rw [List.getD_eq_get _ _ hi]
      have htype : ((runStep s).agents.getD i (mkGovernment 0)).type = AgentType.worker := by
        rw [hgd, (applyUBI_type_strategy _ _).1, stratPhase_type]
        exact hw
      have hstrat : ((runStep s).agents.getD i (mkGovernment 0)).strategy = Strategy.normal := by
        rw [hgd, (applyUBI_type_strategy _ _).2, stratPhase_strategy]
        exact hn
      have hinc : ((runStep s).agents.getD i (mkGovernment 0)).income
          = (s.agents.getD i (mkGovernment 0)).income + s.params.ubi := by
        rw [hgd, applyUBI_worker _ _ (by rw [stratPhase_type]; exact hw),
          stratPhase_of_normal _ hn]
      have := ih (runStep s) (by rw [runStep_params]; exact htax)
        (by rw [runStep_params]; exact hubi) i hi' htype hstrat
      rw [advance_succ, this, hinc, runStep_params]
      push_cast
      ring

/-- Each initialization band carries its fixed strategy. -/
lemma initAgents_strategy (p : Params) (rnd : Nat → ℚ) (mexp : ℚ → ℚ) :
    ∀ a ∈ initAgents p rnd mexp,
      (a.type = AgentType.worker → a.strategy = Strategy.normal) ∧
      (a.type = AgentType.capitalist → a.strategy = Strategy.invest) ∧
      (a.type = AgentType.government → a.strategy = Strategy.regulate) := by
  intro a ha
  simp only [initAgents] at ha
  rcases List.mem_append.1 ha with h1 | h2
  · rcases List.mem_append.1 h1 with h1a | h1b
    · obtain ⟨i, _, rfl⟩ := List.mem_map.1 h1a
      exact ⟨fun _ => rfl, fun h => by simp [mkWorker] at h,
        fun h => by simp [mkWorker] at h⟩
    · obtain ⟨i, _, rfl⟩ := List.mem_map.1 h1b
      exact ⟨fun h => by simp [mkCapitalist] at h, fun _ => rfl,
        fun h => by simp [mkCapitalist] at h⟩
  · obtain ⟨i, _, rfl⟩ := List.mem_map.1 h2
    exact ⟨fun h => by simp [mkGovernment] at h,
      fun h => by simp [mkGovernment] at h, fun _ => rfl⟩

/-- From a fresh state, only the fifth of the first five steps samples
the history, recording step number 5. -/
lemma advance5_steps_of_fresh (s : Sim) (h0 : s.step = 0)
    (hh : s.history = emptyHistory) :
    (advance 5 s).history.steps = [5] := by
  have hadv5 : advance 5 s = runStep (runStep (runStep (runStep (runStep s)))) := rfl
  have st1 : (runStep s).step = 1 := by rw [runStep_step, h0]
  have hi1 : (runStep s).history = emptyHistory := by
    rw [runStep_history, h0, hh]; norm_num
  have st2 : (runStep (runStep s)).step = 2 := by rw [runStep_step, st1]
  have hi2 : (runStep (runStep s)).history = emptyHistory := by
    rw [runStep_history, st1, hi1]; norm_num
  have st3 : (runStep (runStep (runStep s))).step = 3 := by rw [runStep_step, st2]
  have hi3 : (runStep (runStep (runStep s))).history = emptyHistory := by
    rw [runStep_history, st2, hi2]; norm_num
  have st4 : (runStep (runStep (runStep (runStep s)))).step = 4 := by
    rw [runStep_step, st3]
  have hi4 : (runStep (runStep (runStep (runStep s)))).history = emptyHistory := by
    rw [runStep_history, st3, hi3]; norm_num
  have hi5 : (runStep (runStep (runStep (runStep (runStep s))))).history =
      pushHistory emptyHistory 5
        ((runStep (runStep (runStep (runStep (runStep s))))).agents) := by
    rw [runStep_history, st4, hi4]; norm_num
  rw [hadv5, hi5]
  simp [pushHistory, emptyHistory]

/-- C8: initializing with `nAgents = 100` and `ubi = 50` (compute tax 0,
AGI not deployed) and advancing 5 steps adds exactly 250 to every
worker's income (UBI adds 50 per step; the `normal` strategy leaves
income unchanged), and the history holds exactly one sampled point, at
step 5. -/
theorem ubi_scenario (raw : RawParams) (rnd : Nat → ℚ) (mexp : ℚ → ℚ)
    (_hn : raw.nAgents = some 100) (hu : raw.ubi = some 50)
    (ht : (mkParams raw).computeTax = 0) :
    (∀ i, i < (mkSim raw rnd mexp).agents.length →
      ((mkSim raw rnd mexp).agents.getD i (mkGovernment 0)).type = AgentType.worker →
      ((advance 5 (mkSim raw rnd mexp)).agents.getD i (mkGovernment 0)).income
        = ((mkSim raw rnd mexp).agents.getD i (mkGovernment 0)).income + 250) ∧
    (advance 5 (mkSim raw rnd mexp)).history.steps = [5] := by
  constructor
  · intro i hi hw
    have hubi : (mkSim raw rnd mexp).params.ubi = 50 := by
      show (mkParams raw).ubi = 50
      simp [mkParams, hu]
    have hub : 0 < (mkSim raw rnd mexp).params.ubi := by
      rw [hubi]; norm_num
    have hmem : (mkSim raw rnd mexp).agents.getD i (mkGovernment 0) ∈
        (mkSim raw rnd mexp).agents := by
      rw [List.getD_eq_get _ _ hi]
      exact List.get_mem _ _ _
    have hstrat : ((mkSim raw rnd mexp).agents.getD i (mkGovernment 0)).strategy
        = Strategy.normal :=
      (initAgents_strategy (mkParams raw) rnd mexp _ hmem).1 hw
    have hstep := advance_worker_income 5 (mkSim raw rnd mexp) ht hub i hi hw hstrat
    rw [hubi] at hstep
    rw [hstep]
    norm_num
  · exact advance5_steps_of_fresh _ rfl rfl

/-- Witness for C8 at concrete inputs (worker 0 of the 100-agent
population). -/
theorem ubi_scenario_witness :
    (mkParams { nAgents := some 100, ubi := some 50 }).computeTax = 0 ∧
    0 < (mkSim { nAgents := some 100, ubi := some 50 } zeroRnd oneExp).agents.length ∧
    ((mkSim { nAgents := some 100, ubi := some 50 } zeroRnd oneExp).agents.getD 0
      (mkGovernment 0)).type = AgentType.worker ∧
    ((advance 5 (mkSim { nAgents := some 100, ubi := some 50 } zeroRnd oneExp)).agents.getD 0
      (mkGovernment 0)).income
      = ((mkSim { nAgents := some 100, ubi := some 50 } zeroRnd oneExp).agents.getD 0
          (mkGovernment 0)).income + 250 ∧
    (advance 5 (mkSim { nAgents := some 100, ubi := some 50 } zeroRnd oneExp)).history.steps
      = [5] := by
  have e1 : (⌊(100 : ℚ) * 0.8⌋).toNat = 80 := by
    have : (⌊(100 : ℚ) * 0.8⌋) = 80 := by norm_num
    rw [this]; rfl
  have e2 : (⌊(100 : ℚ) * 0.999⌋).toNat = 99 := by
    have : (⌊(100 : ℚ) * 0.999⌋) = 99 := by norm_num
    rw [this]; rfl
  have e3 : (⌈(100 : ℚ)⌉).toNat = 100 := by
    have : (⌈(100 : ℚ)⌉) = 100 := by norm_num
    rw [this]; rfl
  have hn : (mkParams { nAgents := some 100, ubi := some 50 } : Params).nAgents = 100 := rfl
  have hrw : initAgents (mkParams { nAgents := some 100, ubi := some 50 }) zeroRnd oneExp =
      (List.range' 0 80).map (mkWorker zeroRnd oneExp)
        ++ (List.range' 80 19).map (mkCapitalist zeroRnd oneExp)
        ++ (List.range' 99 1).map mkGovernment := by
    simp only [initAgents, hn, e1, e2, e3]
  have hlen : (mkSim { nAgents := some 100, ubi := some 50 } zeroRnd oneExp).agents.length
      = 100 := by
    show (initAgents (mkParams { nAgents := some 100, ubi := some 50 }) zeroRnd oneExp).length
        = 100
    rw [hrw]
    simp
  have htype : ((mkSim { nAgents := some 100, ubi := some 50 } zeroRnd oneExp).agents.getD 0
      (mkGovernment 0)).type = AgentType.worker := by
    show ((initAgents (mkParams { nAgents := some 100, ubi := some 50 })
      zeroRnd oneExp).getD 0 (mkGovernment 0)).type = AgentType.worker
    rw [hrw]
    rfl
  refine ⟨rfl, by rw [hlen]; norm_num, htype, ?_, ?_⟩
  · exact (ubi_scenario { nAgents := some 100, ubi := some 50 } zeroRnd oneExp
      rfl rfl rfl).1 0 (by rw [hlen]; norm_num) htype
  · exact (ubi_scenario { nAgents := some 100, ubi := some 50 } zeroRnd oneExp
      rfl rfl rfl).2

/-- The same simulation with a different compute-tax setting. -/
def withTax (s : Sim) (c : ℚ) : Sim :=
  { s with params := { s.params with computeTax := c } }

/-- While AGI is not deployed, the policy phase reads only `ubi`. -/
lemma policyPhase_undeployed (p q : Params) (hubi : p.ubi = q.ubi)
    (wc : Nat) (l : List Agent) :
    policyPhase p false wc l = policyPhase q false wc l := by
  simp [policyPhase, hubi]

/-- While AGI is not deployed, one step commutes with changing the
compute-tax parameter. -/
lemma runStep_withTax (s : Sim) (c : ℚ) (hd : s.agiDeployed = false) :
    runStep (withTax s c) = withTax (runStep s) c := by
  unfold runStep withTax
  dsimp only
  rw [hd]
  rw [policyPhase_undeployed { s.params with computeTax := c } s.params rfl]

/-- While AGI is not deployed, any number of steps commutes with
changing the compute-tax parameter. -/
lemma advance_withTax (k : Nat) (s : Sim) (c : ℚ) (hd : s.agiDeployed = false) :
    advance k (withTax s c) = withTax (advance k s) c := by
  induction k generalizing s with
  | zero => rfl
  | succ m ih =>
      rw [advance_succ, advance_succ, runStep_withTax s c hd,
        ih (runStep s) (by rw [runStep_agiDeployed]; exact hd)]

/-- `getD` passes through `map` at an in-bounds index. -/
lemma getD_map {α β : Type} (f : α → β) (l : List α) (i : Nat)
    (hi : i < l.length) (d : α) (e : β) :
    (l.map f).getD i e = f (l.getD i d) := by
  rw [List.getD_eq_get _ _ (show i < (l.map f).length by
      rw [List.length_map]; exact hi),
    List.get_map, List.getD_eq_get _ _ hi]

/-- With tax active and UBI on, the policy phase is the UBI map followed
by the tax map. -/
lemma policyPhase_tax_with_ubi (p : Params) (d : Bool) (wc : Nat)
    (l : List Agent) (hu : 0 < p.ubi) (ht : 0 < p.computeTax ∧ d) :
    policyPhase p d wc l =
      (l.map (applyUBI p.ubi)).map
        (applyTax p (taxRevenue p (l.map (applyUBI p.ubi))) wc) := by
  simp [policyPhase, hu, ht]

/-- With tax active and UBI off, the policy phase is just the tax map. -/
lemma policyPhase_tax_no_ubi (p : Params) (d : Bool) (wc : Nat)
    (l : List Agent) (hu : ¬ 0 < p.ubi) (ht : 0 < p.computeTax ∧ d) :
    policyPhase p d wc l = l.map (applyTax p (taxRevenue p l) wc) := by
  simp [policyPhase, hu, ht]

/-- The UBI update leaves non-workers untouched. -/
lemma applyUBI_not_worker (ubi : ℚ) (a : Agent)
    (h : ¬ a.type = AgentType.worker) : applyUBI ubi a = a := by
  unfold applyUBI
  rw [if_neg h]

/-- The tax update subtracts the capitalist's own tax from income. -/
lemma applyTax_capitalist (p : Params) (rev : ℚ) (wc : Nat) (a : Agent)
    (h : a.type = AgentType.capitalist) :
    applyTax p rev wc a =
      { a with income := a.income - agiTax p.agiBoost p.computeTax a.income
               happiness := max 0 (a.happiness - 0.003) } := by
  unfold applyTax
  rw [if_pos h]

/-- C5: while `agiDeployed` is false, any number of steps with
`computeTax = 0.5` yields exactly the same capitalist incomes as the
same steps with `computeTax = 0` (the tax branch never executes before
deployment); after deployment, a step with positive compute tax
subtracts `income · (1 − 1/agiBoost) · computeTax` from each
capitalist's (post-strategy-phase) income. -/
theorem computeTax_inert_until_deployed :
    (∀ (s : Sim) (k : Nat), s.agiDeployed = false →
      ((advance k (withTax s 0.5)).agents.filter
          (fun a => a.type = AgentType.capitalist)).map (fun a => a.income)
        = ((advance k (withTax s 0)).agents.filter
            (fun a => a.type = AgentType.capitalist)).map (fun a => a.income)) ∧
    (∀ (s : Sim), s.agiDeployed = true → 0 < s.params.computeTax →
      ∀ i, i < s.agents.length →
      (s.agents.getD i (mkGovernment 0)).type = AgentType.capitalist →
      ((runStep s).agents.getD i (mkGovernment 0)).income
        = (stratPhase (s.agents.getD i (mkGovernment 0))).income
          - (stratPhase (s.agents.getD i (mkGovernment 0))).income
            * (1 - 1 / s.params.agiBoost) * s.params.computeTax) := by
  constructor
  · intro s k hd
    rw [advance_withTax k s _ hd, advance_withTax k s _ hd]
    rfl
  · intro s hd htax i hi hcap
    have ht' : 0 < s.params.computeTax ∧ s.agiDeployed = true := ⟨htax, hd⟩
    have hnw : ¬ (stratPhase (s.agents.getD i (mkGovernment 0))).type
        = AgentType.worker := by
      rw [stratPhase_type, hcap]
      simp
    have hct : (stratPhase (s.agents.getD i (mkGovernment 0))).type
        = AgentType.capitalist := by
      rw [stratPhase_type]; exact hcap
    by_cases hu : 0 < s.params.ubi
    · have hrw : (runStep s).agents =
          ((s.agents.map stratPhase).map (applyUBI s.params.ubi)).map
            (applyTax s.params
              (taxRevenue s.params ((s.agents.map stratPhase).map (applyUBI s.params.ubi)))
              ((s.agents.filter (fun a => a.type = AgentType.worker)).length)) := by
        show policyPhase _ _ _ _ = _
        rw [policyPhase_tax_with_ubi _ _ _ _ hu ht']
      rw [hrw]
      rw [getD_map _ _ _ (by simp [hi]) (mkGovernment 0)]
      rw [getD_map _ _ _ (by simp [hi]) (mkGovernment 0)]
      rw [getD_map _ _ _ hi (mkGovernment 0)]
      rw [applyUBI_not_worker _ _ hnw]
      rw [applyTax_capitalist _ _ _ _ hct]
      rfl
    · have hrw : (runStep s).agents =
          (s.agents.map stratPhase).map
            (applyTax s.params (taxRevenue s.params (s.agents.map stratPhase))
              ((s.agents.filter (fun a => a.type = AgentType.worker)).length)) := by
        show policyPhase _ _ _ _ = _
        rw [policyPhase_tax_no_ubi _ _ _ _ hu ht']
      rw [hrw]
      rw [getD_map _ _ _ (by simp [hi]) (mkGovernment 0)]
      rw [getD_map _ _ _ hi (mkGovernment 0)]
      rw [applyTax_capitalist _ _ _ _ hct]
      rfl

/-- A one-capitalist post-deployment simulation used to instantiate the
compute-tax theorem. -/
def capSim : Sim :=
  { params := mkParams { computeTax := some 0.5 }
    step := 0
    agiDeployed := true
    agents := [mkCapitalist zeroRnd oneExp 0]
    history := emptyHistory }

/-- Witness for C5 at concrete inputs. -/
theorem computeTax_inert_until_deployed_witness :
    (sampleSim.agiDeployed = false ∧
      ((advance 1 (withTax sampleSim 0.5)).agents.filter
          (fun a => a.type = AgentType.capitalist)).map (fun a => a.income)
        = ((advance 1 (withTax sampleSim 0)).agents.filter
            (fun a => a.type = AgentType.capitalist)).map (fun a => a.income)) ∧
    (capSim.agiDeployed = true ∧ 0 < capSim.params.computeTax ∧
      (capSim.agents.getD 0 (mkGovernment 0)).type = AgentType.capitalist ∧
      ((runStep capSim).agents.getD 0 (mkGovernment 0)).income
        = (stratPhase (capSim.agents.getD 0 (mkGovernment 0))).income
          - (stratPhase (capSim.agents.getD 0 (mkGovernment 0))).income
            * (1 - 1 / capSim.params.agiBoost) * capSim.params.computeTax) := by
  have hc : capSim.params.computeTax = 0.5 := rfl
  refine ⟨⟨rfl, computeTax_inert_until_deployed.1 sampleSim 1 rfl⟩,
    rfl, by rw [hc]; norm_num, rfl, ?_⟩
  exact computeTax_inert_until_deployed.2 capSim rfl (by rw [hc]; norm_num)
    0 (by norm_num [capSim]) rfl

/-- The states reachable through the external operations: a fresh
initialization (with `Math.exp` positive, as it is on every real input),
step advancement, and the guarded Deploy operation. -/
inductive Reachable : Sim → Prop where
  | init (raw : RawParams) (rnd : Nat → ℚ) (mexp : ℚ → ℚ)
      (hexp : ∀ x, 0 < mexp x) : Reachable (mkSim raw rnd mexp)
  | step {s : Sim} : Reachable s → Reachable (runStep s)
  | deploy {s : Sim} : Reachable s → Reachable (deployOp s)

/-- The invariant of C9: non-negative wealth and only the three
strategies that initialization assigns. -/
def GoodAgents (l : List Agent) : Prop :=
  ∀ a ∈ l, 0 ≤ a.wealth ∧
    (a.strategy = Strategy.normal ∨ a.strategy = Strategy.invest ∨
      a.strategy = Strategy.regulate)

/-- Initialization produces only non-negative wealths (via `Math.exp`
positivity and the fixed government wealth) and the three band
strategies. -/
lemma initAgents_good (p : Params) (rnd : Nat → ℚ) (mexp : ℚ → ℚ)
    (hexp : ∀ x, 0 < mexp x) : GoodAgents (initAgents p rnd mexp) := by
  intro a ha
  simp only [initAgents] at ha
  rcases List.mem_append.1 ha with h1 | h2
  · rcases List.mem_append.1 h1 with h1a | h1b
    · obtain ⟨i, _, rfl⟩ := List.mem_map.1 h1a
      exact ⟨le_of_lt (hexp _), Or.inl rfl⟩
    · obtain ⟨i, _, rfl⟩ := List.mem_map.1 h1b
      exact ⟨le_of_lt (hexp _), Or.inr (Or.inl rfl)⟩
  · obtain ⟨i, _, rfl⟩ := List.mem_map.1 h2
    exact ⟨by norm_num [mkGovernment], Or.inr (Or.inr rfl)⟩

/-- The strategy phase keeps wealth non-negative on the three
initialization strategies (only `invest` touches wealth, multiplying it
by 1.02). -/
lemma stratPhase_wealth_nonneg (a : Agent) (hw : 0 ≤ a.wealth)
    (hs : a.strategy = Strategy.normal ∨ a.strategy = Strategy.invest ∨
      a.strategy = Strategy.regulate) :
    0 ≤ (stratPhase a).wealth := by
  obtain ⟨i, t, w, inc, hp, st⟩ := a
  rcases hs with h | h | h <;> (have h' : st = _ := h; subst h')
  · exact hw
  · show 0 ≤ (stratCase _).wealth
    unfold stratCase
    dsimp only
    split_ifs
    · exact mul_nonneg hw (by norm_num)
    · exact hw
  · exact hw

/-- The UBI update never touches wealth. -/
lemma applyUBI_wealth (ubi : ℚ) (a : Agent) :
    (applyUBI ubi a).wealth = a.wealth := by
  unfold applyUBI
  split_ifs <;> rfl

/-- The tax update never touches wealth. -/
lemma applyTax_wealth (p : Params) (rev : ℚ) (wc : Nat) (a : Agent) :
    (applyTax p rev wc a).wealth = a.wealth := by
  unfold applyTax
  split_ifs <;> rfl

/-- The tax update never changes type or strategy. -/
lemma applyTax_type_strategy (p : Params) (rev : ℚ) (wc : Nat) (a : Agent) :
    (applyTax p rev wc a).type = a.type ∧
      (applyTax p rev wc a).strategy = a.strategy := by
  unfold applyTax
  split_ifs <;> exact ⟨rfl, rfl⟩

/-- With UBI on and the tax branch off, the policy phase is the UBI
map. -/
lemma policyPhase_ubi_only (p : Params) (d : Bool) (wc : Nat)
    (l : List Agent) (hu : 0 < p.ubi) (ht : ¬(0 < p.computeTax ∧ d)) :
    policyPhase p d wc l = l.map (applyUBI p.ubi) := by
  simp [policyPhase, hu, ht]

/-- With neither policy active, the policy phase is the identity. -/
lemma policyPhase_inactive (p : Params) (d : Bool) (wc : Nat)
    (l : List Agent) (hu : ¬ 0 < p.ubi) (ht : ¬(0 < p.computeTax ∧ d)) :
    policyPhase p d wc l = l := by
  simp [policyPhase, hu, ht]

/-- Every output agent of the policy phase keeps some input agent's
wealth and strategy (the phase touches only income and happiness). -/
lemma policyPhase_mem (p : Params) (d : Bool) (wc : Nat) (l : List Agent) :
    ∀ b ∈ policyPhase p d wc l,
      ∃ a ∈ l, b.wealth = a.wealth ∧ b.strategy = a.strategy := by
  intro b hb
  by_cases hu : 0 < p.ubi <;> by_cases ht : 0 < p.computeTax ∧ d
  · rw [policyPhase_tax_with_ubi _ _ _ _ hu ht] at hb
    obtain ⟨c, hc, rfl⟩ := List.mem_map.1 hb
    obtain ⟨a, ha, rfl⟩ := List.mem_map.1 hc
    exact ⟨a, ha, by rw [applyTax_wealth, applyUBI_wealth],
      by rw [(applyTax_type_strategy _ _ _ _).2, (applyUBI_type_strategy _ _).2]⟩
  · rw [policyPhase_ubi_only _ _ _ _ hu ht] at hb
    obtain ⟨a, ha, rfl⟩ := List.mem_map.1 hb
    exact ⟨a, ha, applyUBI_wealth _ _, (applyUBI_type_strategy _ _).2⟩
  · rw [policyPhase_tax_no_ubi _ _ _ _ hu ht] at hb
    obtain ⟨a, ha, rfl⟩ := List.mem_map.1 hb
    exact ⟨a, ha, applyTax_wealth _ _ _ _, (applyTax_type_strategy _ _ _ _).2⟩
  · rw [policyPhase_inactive _ _ _ _ hu ht] at hb
    exact ⟨b, hb, rfl, rfl⟩

/-- One step preserves the C9 invariant. -/
lemma runStep_good (s : Sim) (h : GoodAgents s.agents) :
    GoodAgents (runStep s).agents := by
  intro b hb
  have hrw : (runStep s).agents =
      policyPhase s.params s.agiDeployed
        ((s.agents.filter (fun a => a.type = AgentType.worker)).length)
        (s.agents.map stratPhase) := rfl
  rw [hrw] at hb
  obtain ⟨c, hc, hw, hs⟩ := policyPhase_mem _ _ _ _ b hb
  obtain ⟨a, ha, rfl⟩ := List.mem_map.1 hc
  have hg := h a ha
  refine ⟨?_, ?_⟩
  · rw [hw]
    exact stratPhase_wealth_nonneg a hg.1 hg.2
  · rw [hs, stratPhase_strategy]
    exact hg.2

/-- The deployment shock keeps wealth non-negative and never changes
strategies. -/
lemma deployShock_good (p : Params) (a : Agent) (hw : 0 ≤ a.wealth) :
    0 ≤ (deployShock p a).wealth ∧ (deployShock p a).strategy = a.strategy := by
  unfold deployShock
  split_ifs
  · exact ⟨mul_nonneg hw (by norm_num), rfl⟩
  · exact ⟨hw, rfl⟩
  · exact ⟨hw, rfl⟩

/-- C9: in every state reachable from initialization, every agent's
wealth is non-negative, and every agent carries one of the strategies
`normal`, `invest`, `regulate` — so the `save` and `spend` branches of
the strategy phase never execute on a reachable agent. -/
theorem reachable_wealth_nonneg (s : Sim) (h : Reachable s) :
    ∀ a ∈ s.agents, 0 ≤ a.wealth ∧
      (a.strategy = Strategy.normal ∨ a.strategy = Strategy.invest ∨
        a.strategy = Strategy.regulate) := by
  induction h with
  | init raw rnd mexp hexp => exact initAgents_good (mkParams raw) rnd mexp hexp
  | step _ ih => exact runStep_good _ ih
  | deploy _ ih =>
      rename_i t _
      unfold deployOp
      split_ifs
      · exact ih
      · intro b hb
        obtain ⟨a, ha, rfl⟩ := List.mem_map.1 hb
        have hg := ih a ha
        exact ⟨(deployShock_good _ _ hg.1).1,
          by rw [(deployShock_good _ _ hg.1).2]; exact hg.2⟩

/-- Witness for C9 at a concrete reachable state and agent. -/
theorem reachable_wealth_nonneg_witness :
    0 ≤ (sampleSim.agents.getD 0 (mkGovernment 0)).wealth ∧
      ((sampleSim.agents.getD 0 (mkGovernment 0)).strategy = Strategy.normal ∨
        (sampleSim.agents.getD 0 (mkGovernment 0)).strategy = Strategy.invest ∨
        (sampleSim.agents.getD 0 (mkGovernment 0)).strategy = Strategy.regulate) := by
  have hpos : 0 < sampleSim.agents.length := by rw [sampleSim_length]; norm_num
  have hmem : sampleSim.agents.getD 0 (mkGovernment 0) ∈ sampleSim.agents := by
    rw [List.getD_eq_get _ _ hpos]
    exact List.get_mem _ _ _
  exact reachable_wealth_nonneg sampleSim
    (Reachable.init { nAgents := some 5 } zeroRnd oneExp (fun _ => one_pos)) _ hmem

/-- A list's sum as an indexed sum over its positions. -/
lemma sum_getD (ws : List ℚ) :
    ws.sum = ∑ i ∈ Finset.range ws.length, ws.getD i 0 := by
  induction ws with
  | nil => simp
  | cons a l ih =>
      rw [List.sum_cons, List.length_cons, Finset.sum_range_succ']
      simp only [List.getD_cons_succ, List.getD_cons_zero]
      rw [← ih]
      ring

/-- The Gini numerator as a sum of pairwise differences:
`Σ_i (2i+1-n)·w(i) = Σ_{i<j} (w(j) - w(i))`. -/
lemma giniPair (w : ℕ → ℚ) (n : ℕ) :
    ∑ i ∈ Finset.range n, (2 * (i : ℚ) + 1 - n) * w i
      = ∑ j ∈ Finset.range n, ∑ i ∈ Finset.range j, (w j - w i) := by
  induction n with
  | zero => simp
  | succ m ih =>
      rw [Finset.sum_range_succ, Finset.sum_range_succ]
      have hL : ∑ i ∈ Finset.range m, (2 * (i : ℚ) + 1 - ((m : ℚ) + 1)) * w i
          = (∑ i ∈ Finset.range m, (2 * (i : ℚ) + 1 - m) * w i)
            - ∑ i ∈ Finset.range m, w i := by
        rw [← Finset.sum_sub_distrib]
        apply Finset.sum_congr rfl
        intro i _
        ring
      have hcast : ∑ i ∈ Finset.range m, (2 * (i : ℚ) + 1 - ((m + 1 : ℕ) : ℚ)) * w i
          = ∑ i ∈ Finset.range m, (2 * (i : ℚ) + 1 - ((m : ℚ) + 1)) * w i := by
        apply Finset.sum_congr rfl
        intro i _
        push_cast
        ring
      have hR : ∑ i ∈ Finset.range m, (w m - w i)
          = m * w m - ∑ i ∈ Finset.range m, w i := by
        rw [Finset.sum_sub_distrib, Finset.sum_const, Finset.card_range, nsmul_eq_mul]
      rw [hcast, hL, ih, hR]
      push_cast
      ring

/-- The Gini numerator is non-negative for an ascending sequence. -/
lemma giniPair_nonneg (w : ℕ → ℚ) (n : ℕ)
    (hmono : ∀ i j, i ≤ j → j < n → w i ≤ w j) :
    0 ≤ ∑ i ∈ Finset.range n, (2 * (i : ℚ) + 1 - n) * w i := by
  rw [giniPair]
  apply Finset.sum_nonneg
  intro j hj
  apply Finset.sum_nonneg
  intro i hi
  have := hmono i j (le_of_lt (Finset.mem_range.1 hi)) (Finset.mem_range.1 hj)
  linarith

/-- The Gini numerator is at most `n` times the total for non-negative
values. -/
lemma giniPair_le (w : ℕ → ℚ) (n : ℕ) (hnn : ∀ i, i < n → 0 ≤ w i) :
    ∑ i ∈ Finset.range n, (2 * (i : ℚ) + 1 - n) * w i
      ≤ n * ∑ i ∈ Finset.range n, w i := by
  rw [giniPair]
  calc ∑ j ∈ Finset.range n, ∑ i ∈ Finset.range j, (w j - w i)
      ≤ ∑ j ∈ Finset.range n, ∑ i ∈ Finset.range j, w j := by
        apply Finset.sum_le_sum
        intro j hj
        apply Finset.sum_le_sum
        intro i hi
        have := hnn i (lt_trans (Finset.mem_range.1 hi) (Finset.mem_range.1 hj))
        linarith
    _ = ∑ j ∈ Finset.range n, (j : ℚ) * w j := by
        apply Finset.sum_congr rfl
        intro j _
        rw [Finset.sum_const, Finset.card_range, nsmul_eq_mul]
    _ ≤ ∑ j ∈ Finset.range n, (n : ℚ) * w j := by
        apply Finset.sum_le_sum
        intro j hj
        have hj' : (j : ℚ) ≤ n := by
          exact_mod_cast le_of_lt (Finset.mem_range.1 hj)
        exact mul_le_mul_of_nonneg_right hj' (hnn j (Finset.mem_range.1 hj))
    _ = n * ∑ j ∈ Finset.range n, w j := by rw [Finset.mul_sum]

/-- The loop of `calculateGini`, with its coefficient rewritten to
`2i + 1 - n`. -/
lemma giniSum_eq (ws : List ℚ) :
    giniSum ws = ∑ i ∈ Finset.range ws.length,
      (2 * (i : ℚ) + 1 - ws.length) * ws.getD i 0 := by
  unfold giniSum
  apply Finset.sum_congr rfl
  intro i _
  ring

/-- Positional access of a `≤`-pairwise-sorted list is monotone. -/
lemma sorted_getD_mono (ws : List ℚ) (hs : List.Pairwise (· ≤ ·) ws) :
    ∀ i j, i ≤ j → j < ws.length → ws.getD i 0 ≤ ws.getD j 0 := by
  intro i j hij hj
  have hi : i < ws.length := lt_of_le_of_lt hij hj
  rw [List.getD_eq_get _ _ hi, List.getD_eq_get _ _ hj]
  rcases lt_or_eq_of_le hij with h | h
  · exact (List.pairwise_iff_get.1 hs) ⟨i, hi⟩ ⟨j, hj⟩ h
  · subst h
    exact le_refl _

/-- `calculateGini`'s sorted wealth list is pairwise `≤`-ordered. -/
lemma sortedWealths_sorted (agents : List Agent) :
    List.Pairwise (· ≤ ·) (sortedWealths agents) := by
  have h := @List.sorted_mergeSort ℚ (fun a b => decide (a ≤ b))
    (fun a b c hab hbc => by
      simp only [decide_eq_true_eq] at hab hbc ⊢
      exact le_trans hab hbc)
    (fun a b => by
      simp only [Bool.or_eq_true, decide_eq_true_eq]
      exact le_total a b)
    (agents.map (fun a => a.wealth))
  exact h.imp (fun hab => by simpa using hab)

/-- The sorted wealth list sums to the total wealth. -/
lemma sortedWealths_sum (agents : List Agent) :
    (sortedWealths agents).sum = totalWealth agents := by
  show ((agents.map (fun a => a.wealth)).mergeSort (fun a b => decide (a ≤ b))).sum
      = (agents.map (fun a => a.wealth)).sum
  exact (List.mergeSort_perm _ _).sum_eq

/-- Membership in the sorted wealth list is membership in the raw wealth
list. -/
lemma sortedWealths_mem (agents : List Agent) :
    ∀ x ∈ sortedWealths agents, x ∈ agents.map (fun a => a.wealth) := by
  intro x hx
  exact (List.mergeSort_perm (agents.map (fun a => a.wealth)) _).mem_iff.1 hx

/-- C2: for every population of non-negative wealths with positive
total, `calculateGini` lies in [0, 1]; and whenever all wealths equal a
single positive value, it returns exactly 0. -/
theorem gini_bounds :
    (∀ agents : List Agent, (∀ a ∈ agents, 0 ≤ a.wealth) →
      0 < totalWealth agents →
      0 ≤ calculateGini agents ∧ calculateGini agents ≤ 1) ∧
    (∀ (agents : List Agent) (c : ℚ), 0 < c →
      (∀ a ∈ agents, a.wealth = c) → calculateGini agents = 0) := by
  have hmain : ∀ agents : List Agent, (∀ a ∈ agents, 0 ≤ a.wealth) →
      0 < totalWealth agents →
      0 ≤ calculateGini agents ∧ calculateGini agents ≤ 1 := by
    intro agents hnn hpos
    have hsum : (sortedWealths agents).sum = totalWealth agents :=
      sortedWealths_sum agents
    have hS : 0 < (sortedWealths agents).sum := by rw [hsum]; exact hpos
    have hsum_ne : ¬ (sortedWealths agents).sum = 0 := ne_of_gt hS
    have hgini : calculateGini agents =
        giniSum (sortedWealths agents)
          / ((sortedWealths agents).length * (sortedWealths agents).sum) := by
      simp only [calculateGini]
      rw [if_neg hsum_ne]
    have hnn' : ∀ i, i < (sortedWealths agents).length →
        0 ≤ (sortedWealths agents).getD i 0 := by
      intro i hi
      rw [List.getD_eq_get _ _ hi]
      have hmem := sortedWealths_mem agents _ (List.get_mem _ i hi)
      obtain ⟨a, ha, he⟩ := List.mem_map.1 hmem
      rw [← he]
      exact hnn a ha
    have hmono := sorted_getD_mono (sortedWealths agents) (sortedWealths_sorted agents)
    have hne : (sortedWealths agents) ≠ [] := by
      intro h
      rw [h] at hS
      simp at hS
    have hn : 0 < (sortedWealths agents).length := List.length_pos.2 hne
    have hnum_nonneg : 0 ≤ giniSum (sortedWealths agents) := by
      rw [giniSum_eq]
      exact giniPair_nonneg _ _ hmono
    have hnum_le : giniSum (sortedWealths agents)
        ≤ (sortedWealths agents).length * (sortedWealths agents).sum := by
      rw [giniSum_eq, sum_getD]
      exact giniPair_le _ _ hnn'
    have hden : 0 < ((sortedWealths agents).length : ℚ) * (sortedWealths agents).sum :=
      mul_pos (by exact_mod_cast hn) hS
    rw [hgini]
    constructor
    · exact div_nonneg hnum_nonneg (le_of_lt hden)
    · exact (div_le_one hden).2 hnum_le
  refine ⟨hmain, ?_⟩
  intro agents c hc hw
  have hmemc : ∀ x ∈ sortedWealths agents, x = c := by
    intro x hx
    obtain ⟨a, ha, he⟩ := List.mem_map.1 (sortedWealths_mem agents x hx)
    rw [← he]
    exact hw a ha
  by_cases hz : (sortedWealths agents).sum = 0
  · simp only [calculateGini]
    rw [if_pos hz]
  · have hcoeff : ∀ n : ℕ, ∑ i ∈ Finset.range n, (2 * (i : ℚ) + 1 - n) = 0 := by
      intro n
      induction n with
      | zero => simp
      | succ m ih =>
          rw [Finset.sum_range_succ]
          have hstep : ∀ i ∈ Finset.range m,
              (2 * (i : ℚ) + 1 - ((m + 1 : ℕ) : ℚ)) = (2 * (i : ℚ) + 1 - m) - 1 := by
            intro i _
            push_cast
            ring
          rw [Finset.sum_congr rfl hstep, Finset.sum_sub_distrib, ih,
            Finset.sum_const, Finset.card_range, nsmul_eq_mul, mul_one]
          push_cast
          ring
    have hnum : giniSum (sortedWealths agents) = 0 := by
      rw [giniSum_eq]
      have : ∀ i ∈ Finset.range (sortedWealths agents).length,
          (2 * (i : ℚ) + 1 - (sortedWealths agents).length)
            * (sortedWealths agents).getD i 0
          = (2 * (i : ℚ) + 1 - (sortedWealths agents).length) * c := by
        intro i hi
        have hmemi : (sortedWealths agents).getD i 0 = c := by
          rw [List.getD_eq_get _ _ (Finset.mem_range.1 hi)]
          exact hmemc _ (List.get_mem _ _ _)
        rw [hmemi]
      rw [Finset.sum_congr rfl this, ← Finset.sum_mul, hcoeff, zero_mul]
    simp only [calculateGini]
    rw [if_neg hz, hnum, zero_div]

/-- Witness for C2 at concrete populations. -/
theorem gini_bounds_witness :
    (0 ≤ calculateGini [mkGovernment 0] ∧ calculateGini [mkGovernment 0] ≤ 1) ∧
    calculateGini [mkGovernment 0, mkGovernment 1] = 0 := by
  constructor
  · apply gini_bounds.1
    · intro a ha
      simp only [List.mem_singleton] at ha
      subst ha
      norm_num [mkGovernment]
    · show 0 < totalWealth [mkGovernment 0]
      norm_num [totalWealth, mkGovernment]
  · apply gini_bounds.2 _ 1000000 (by norm_num)
    intro a ha
    simp only [List.mem_cons, List.not_mem_nil, or_false] at ha
    rcases ha with h | h <;> (subst h; rfl)

end AgiEconomy
